import Mathlib

/-!
Shallow embedding of the Slalom capabilities-management service
(`src/app.py`): the permission model, the registration workflow
(submit / approve / reject / unregister), and the password-verification
control flow, together with theorems about the claims of the
specification.

Modelling conventions:
* Python dicts holding capabilities are modelled as association lists
  keyed by capability name (Python dict lookup is exact string equality;
  keys are unique in the seeded data and never added or removed).
* The opaque metadata fields of a capability (description, skill levels,
  certifications, industry verticals, capacity) are never read or written
  by the core logic, so the embedding carries only `practice_area` and
  `consultants`.
* An HTTP request's authenticated session is an `Option SessionUser`
  argument (`none` = no session).
* `raise HTTPException(status, detail)` is `Except.error (.httpError status detail)`;
  an uncaught Python `ValueError` (e.g. `int()` on a non-numeric string)
  is `Except.error .valueError`.  All raises in the translated handlers
  occur before any mutation, so an error result faithfully models a
  handler that leaves the shared state untouched.
* Python `str.lower` is modelled as per-character ASCII lowercasing;
  all data handled by the service is ASCII.
* `datetime.now(...)` is passed in as an explicit `now : String` argument.
-/

structure Capability where
  practice_area : String
  consultants : List String
deriving DecidableEq, Repr

structure PendingRequest where
  capability_name : String
  email : String
  requested_by : String
  created_at : String
deriving DecidableEq, Repr

structure SessionUser where
  username : String
  email : String
  role : String
  practice_areas : List String
deriving DecidableEq, Repr

structure AppState where
  capabilities : List (String × Capability)
  pending_registration_requests : List PendingRequest
deriving DecidableEq, Repr

inductive PyError where
  | httpError (status : Nat) (detail : String)
  | valueError
deriving DecidableEq, Repr

/-- Python `str.lower()` restricted to ASCII: lowercase every character. -/
def lower (s : String) : String := String.mk (s.data.map Char.toLower)

/-- Python dict lookup `capabilities.get(name)` on the association list. -/
def lookupCap : List (String × Capability) → String → Option Capability
  | [], _ => none
  | kv :: rest, name => if kv.1 = name then some kv.2 else lookupCap rest name

/-- In-place mutation of the capability record stored under `name`. -/
def updateCap (caps : List (String × Capability)) (name : String)
    (f : Capability → Capability) : List (String × Capability) :=
  caps.map (fun kv => if kv.1 = name then (kv.1, f kv.2) else kv)

/-- `has_practice_area_permission` from `app.py` (lines 181-193). -/
def has_practice_area_permission (caps : List (String × Capability))
    (user : SessionUser) (capability_name : String) : Bool :=
  match lookupCap caps capability_name with
  | none => false
  | some capability =>
    if user.role ≠ "practice_lead" then false
    else if "*" ∈ user.practice_areas then true
    else capability.practice_area ∈ user.practice_areas

/-- `find_pending_request` from `app.py` (lines 196-205): first entry whose
capability name matches exactly and whose email matches case-insensitively. -/
def find_pending_request (pending : List PendingRequest)
    (capability_name email : String) : Option PendingRequest :=
  pending.find? (fun r =>
    r.capability_name == capability_name && lower r.email == lower email)

/-- `is_consultant_registered` from `app.py` (lines 208-209). -/
def is_consultant_registered (capability : Capability) (email : String) : Bool :=
  capability.consultants.any (fun c => lower c == lower email)

/-- `remove_consultant` from `app.py` (lines 212-217): removes the first
case-insensitive match, or raises a 400 when no entry matches. -/
def remove_consultant : List String → String → Except PyError (List String)
  | [], _ => .error (.httpError 400 "Consultant is not registered for this capability")
  | c :: rest, email =>
    if lower c == lower email then .ok rest
    else
      match remove_consultant rest email with
      | .ok rest' => .ok (c :: rest')
      | .error e => .error e

/-- `get_authenticated_user` from `app.py` (lines 167-171). -/
def get_authenticated_user (auth : Option SessionUser) : Except PyError SessionUser :=
  match auth with
  | none => .error (.httpError 401 "Please log in first")
  | some u => .ok u

/-- `require_practice_lead` from `app.py` (lines 174-178). -/
def require_practice_lead (auth : Option SessionUser) : Except PyError SessionUser :=
  match get_authenticated_user auth with
  | .error e => .error e
  | .ok user =>
    if user.role ≠ "practice_lead" then
      .error (.httpError 403 "Practice lead permissions are required")
    else .ok user

/-- The `POST /capabilities/\x7bname\x7d/register` handler,
`register_for_capability` from `app.py` (lines 264-320). -/
def register_for_capability (st : AppState) (auth : Option SessionUser)
    (capability_name email now : String) : Except PyError (AppState × String) :=
  match get_authenticated_user auth with
  | .error e => .error e
  | .ok authenticated_user =>
    match lookupCap st.capabilities capability_name with
    | none => .error (.httpError 404 "Capability not found")
    | some capability =>
      if is_consultant_registered capability email then
        .error (.httpError 400 "Consultant is already registered for this capability")
      else if authenticated_user.role = "consultant" then
        if lower authenticated_user.email ≠ lower email then
          .error (.httpError 403 "Consultants can only request registration for themselves")
        else if (find_pending_request st.pending_registration_requests
                  capability_name email).isSome then
          .error (.httpError 400 "A pending registration request already exists")
        else
          .ok ({ st with pending_registration_requests :=
                   st.pending_registration_requests ++
                     [⟨capability_name, email, authenticated_user.username, now⟩] },
               s!"Registration request submitted for {email} on {capability_name}. A practice lead must approve it.")
      else if authenticated_user.role = "practice_lead" then
        if ¬ has_practice_area_permission st.capabilities authenticated_user capability_name then
          .error (.httpError 403 "You do not have permissions for this capability\x27s practice area")
        else
          .ok ({ st with capabilities :=
                   (updateCap st.capabilities capability_name
                     (fun c => { c with consultants := c.consultants ++ [email] })) },
               s!"Registered {email} for {capability_name}")
      else .error (.httpError 403 "Unsupported user role")

/-- The `DELETE /capabilities/\x7bname\x7d/unregister` handler,
`unregister_from_capability` from `app.py` (lines 323-343). -/
def unregister_from_capability (st : AppState) (auth : Option SessionUser)
    (capability_name email : String) : Except PyError (AppState × String) :=
  match require_practice_lead auth with
  | .error e => .error e
  | .ok authenticated_user =>
    match lookupCap st.capabilities capability_name with
    | none => .error (.httpError 404 "Capability not found")
    | some capability =>
      if ¬ has_practice_area_permission st.capabilities authenticated_user capability_name then
        .error (.httpError 403 "You do not have permissions for this capability\x27s practice area")
      else
        match remove_consultant capability.consultants email with
        | .error e => .error e
        | .ok consultants' =>
          .ok ({ st with capabilities :=
                   (updateCap st.capabilities capability_name
                     (fun c => { c with consultants := consultants' })) },
               s!"Unregistered {email} from {capability_name}")

/-- The `POST /registration-requests/\x7bname\x7d/approve` handler,
`approve_registration_request` from `app.py` (lines 362-384). -/
def approve_registration_request (st : AppState) (auth : Option SessionUser)
    (capability_name email : String) : Except PyError (AppState × String) :=
  match require_practice_lead auth with
  | .error e => .error e
  | .ok authenticated_user =>
    match lookupCap st.capabilities capability_name with
    | none => .error (.httpError 404 "Capability not found")
    | some capability =>
      if ¬ has_practice_area_permission st.capabilities authenticated_user capability_name then
        .error (.httpError 403 "You do not have permissions for this capability\x27s practice area")
      else
        match find_pending_request st.pending_registration_requests capability_name email with
        | none => .error (.httpError 404 "Pending registration request not found")
        | some pending_request =>
          .ok ({ st with
                 capabilities :=
                   (if is_consultant_registered capability email then st.capabilities
                    else updateCap st.capabilities capability_name
                      (fun c => { c with consultants := c.consultants ++ [email] })),
                 pending_registration_requests :=
                   (st.pending_registration_requests.erase pending_request) },
               s!"Approved registration for {email} on {capability_name}")

/-- The `POST /registration-requests/\x7bname\x7d/reject` handler,
`reject_registration_request` from `app.py` (lines 387-405). -/
def reject_registration_request (st : AppState) (auth : Option SessionUser)
    (capability_name email : String) : Except PyError (AppState × String) :=
  match require_practice_lead auth with
  | .error e => .error e
  | .ok authenticated_user =>
    match lookupCap st.capabilities capability_name with
    | none => .error (.httpError 404 "Capability not found")
    | some _ =>
      if ¬ has_practice_area_permission st.capabilities authenticated_user capability_name then
        .error (.httpError 403 "You do not have permissions for this capability\x27s practice area")
      else
        match find_pending_request st.pending_registration_requests capability_name email with
        | none => .error (.httpError 404 "Pending registration request not found")
        | some pending_request =>
          .ok ({ st with pending_registration_requests :=
                   (st.pending_registration_requests.erase pending_request) },
               s!"Rejected registration request for {email} on {capability_name}")

/-- The consultant roster recorded for `capability_name` (empty when the
capability is unknown). -/
def roster (st : AppState) (capability_name : String) : List String :=
  match lookupCap st.capabilities capability_name with
  | none => []
  | some c => c.consultants

/-- The in-memory state at process start: the seeded `capabilities` dict from
`app.py` (lines 40-122, keeping the fields the core logic reads) and the empty
`pending_registration_requests` list (line 124). -/
def initialState : AppState :=
  { capabilities := [
      ("Cloud Architecture", ⟨"Technology", ["alice.smith@slalom.com", "bob.johnson@slalom.com"]⟩),
      ("Data Analytics", ⟨"Technology", ["emma.davis@slalom.com", "sophia.wilson@slalom.com"]⟩),
      ("DevOps Engineering", ⟨"Technology", ["john.brown@slalom.com", "olivia.taylor@slalom.com"]⟩),
      ("Digital Strategy", ⟨"Strategy", ["liam.anderson@slalom.com", "noah.martinez@slalom.com"]⟩),
      ("Change Management", ⟨"Operations", ["ava.garcia@slalom.com", "mia.rodriguez@slalom.com"]⟩),
      ("UX/UI Design", ⟨"Technology", ["amelia.lee@slalom.com", "harper.white@slalom.com"]⟩),
      ("Cybersecurity", ⟨"Technology", ["ella.clark@slalom.com", "scarlett.lewis@slalom.com"]⟩),
      ("Business Intelligence", ⟨"Technology", ["james.walker@slalom.com", "benjamin.hall@slalom.com"]⟩),
      ("Agile Coaching", ⟨"Operations", ["charlotte.young@slalom.com", "henry.king@slalom.com"]⟩)],
    pending_registration_requests := [] }

/-- One state-mutating API call that succeeded.  (Only successful calls change
the registry or pending list: every `raise` in the source occurs before any
mutation.  `login`/`logout` touch only the session, never this state.) -/
inductive Step : AppState → AppState → Prop where
  | register (auth : Option SessionUser) (name email now : String)
      (st st' : AppState) (m : String) :
      register_for_capability st auth name email now = .ok (st', m) → Step st st'
  | unregister (auth : Option SessionUser) (name email : String)
      (st st' : AppState) (m : String) :
      unregister_from_capability st auth name email = .ok (st', m) → Step st st'
  | approve (auth : Option SessionUser) (name email : String)
      (st st' : AppState) (m : String) :
      approve_registration_request st auth name email = .ok (st', m) → Step st st'
  | reject (auth : Option SessionUser) (name email : String)
      (st st' : AppState) (m : String) :
      reject_registration_request st auth name email = .ok (st', m) → Step st st'

/-- States reachable from process start by any sequence of API calls. -/
inductive Reachable : AppState → Prop where
  | init : Reachable initialState
  | step {st st' : AppState} : Reachable st → Step st st' → Reachable st'

/-! ### Authenticator: password verification and login -/

/-- A user record from the credential store (`practice_leads.json`); the
backing file is an external collaborator, so records are taken as given. -/
structure UserRecord where
  username : String
  email : String
  role : String
  practice_areas : List String
  password_hash : String
deriving DecidableEq, Repr

/-- Split a character list at every dollar sign (no split limit). -/
def splitOnDollar : List Char → List (List Char)
  | [] => [[]]
  | c :: rest =>
    if c = '$' then [] :: splitOnDollar rest
    else
      match splitOnDollar rest with
      | [] => [[c]]
      | h :: t => (c :: h) :: t

/-- Re-join character-list pieces with dollar signs. -/
def joinDollar : List (List Char) → List Char
  | [] => []
  | [x] => x
  | x :: y :: rest => x ++ '$' :: joinDollar (y :: rest)

/-- Python `stored_hash.split("$", 3)`: at most three splits, the final
piece keeps any further dollar signs. -/
def splitDollar3 (s : String) : List String :=
  let parts := splitOnDollar s.data
  let limited := if parts.length ≤ 4 then parts
                 else parts.take 3 ++ [joinDollar (parts.drop 3)]
  limited.map String.mk

/-- Validity of a Python base-10 digit string: digits optionally separated
by single underscores (grammar `digit (["_"] digit)*`). -/
def validDigits : List Char → Bool
  | [] => false
  | [c] => c.isDigit
  | c :: '_' :: rest => c.isDigit && validDigits rest
  | c :: c' :: rest => c.isDigit && validDigits (c' :: rest)

/-- Decimal value of a digit string, skipping underscores. -/
def digitsToNat (cs : List Char) : Nat :=
  cs.foldl (fun acc c => if c = '_' then acc else acc * 10 + (c.toNat - 48)) 0

/-- Python `int(s)` for base 10: strips surrounding whitespace, allows one
sign, then underscore-separated digits; `none` models the `ValueError` it
raises otherwise. -/
def pyToInt (s : String) : Option Int :=
  let cs := ((s.data.dropWhile Char.isWhitespace).reverse.dropWhile
    Char.isWhitespace).reverse
  match cs with
  | '+' :: ds => if validDigits ds then some (digitsToNat ds : Int) else none
  | '-' :: ds => if validDigits ds then some (-(digitsToNat ds : Int)) else none
  | ds => if validDigits ds then some (digitsToNat ds : Int) else none

/-- `verify_password` from `app.py` (lines 141-156), parameterized by the
external hash primitive `pbkdf2` standing for
`hashlib.pbkdf2_hmac("sha256", password, salt, iterations).hex()`.
The `try` only guards the 4-way unpacking; `int(iterations)` raising on a
non-numeric field, and `hashlib.pbkdf2_hmac` raising on an iteration count
below 1, are uncaught `ValueError`s. -/
def verify_password (pbkdf2 : String → String → Nat → String)
    (stored_hash provided_password : String) : Except PyError Bool :=
  match splitDollar3 stored_hash with
  | [algorithm, iterations, salt, digest] =>
    if algorithm ≠ "pbkdf2_sha256" then
      .error (.httpError 500 "Unsupported password hash algorithm")
    else
      match pyToInt iterations with
      | none => .error .valueError
      | some n =>
        if n < 1 then .error .valueError
        else .ok (pbkdf2 provided_password salt n.toNat == digest)
  | _ => .error (.httpError 500 "Invalid credential configuration")

/-- `get_user_by_username` from `app.py` (lines 159-164). -/
def get_user_by_username (users : List UserRecord) (username : String) :
    Option UserRecord :=
  users.find? (fun u => lower u.username == lower username)

/-- The `POST /auth/login` handler from `app.py` (lines 225-242), returning
the session projection stored for the authenticated user. -/
def login (pbkdf2 : String → String → Nat → String) (users : List UserRecord)
    (username password : String) : Except PyError SessionUser :=
  match get_user_by_username users username with
  | none => .error (.httpError 401 "Invalid username or password")
  | some user =>
    match verify_password pbkdf2 user.password_hash password with
    | .error e => .error e
    | .ok false => .error (.httpError 401 "Invalid username or password")
    | .ok true => .ok ⟨user.username, user.email, user.role, user.practice_areas⟩

/-! ### Invariants -/

/-- At most one pending request per (capability name, case-insensitive email)
pair. -/
def pendingUnique (l : List PendingRequest) : Prop :=
  l.Pairwise (fun a b =>
    ¬ (a.capability_name = b.capability_name ∧ lower a.email = lower b.email))

/-- No (capability, email) pair is simultaneously registered and pending. -/
def RegPendingDisjoint (st : AppState) : Prop :=
  ∀ C E, (∃ r ∈ st.pending_registration_requests,
            r.capability_name = C ∧ lower r.email = lower E) →
    ∀ cap, lookupCap st.capabilities C = some cap →
      is_consultant_registered cap E = false

/-- Conjunction of the two workflow invariants. -/
def GoodInv (st : AppState) : Prop :=
  pendingUnique st.pending_registration_requests ∧ RegPendingDisjoint st

/-! ### Concrete instances used in witnesses and counterexamples -/

/-- A consultant session (role `consultant`, no practice areas). -/
def carol : SessionUser := ⟨"carol", "carol@slalom.com", "consultant", []⟩

/-- A practice-lead session with the wildcard practice-area scope. -/
def pat : SessionUser := ⟨"pat", "pat@slalom.com", "practice_lead", ["*"]⟩

/-- A practice-lead session scoped to the Technology practice area only. -/
def techLead : SessionUser := ⟨"tech", "tech@slalom.com", "practice_lead", ["Technology"]⟩

/-- The seeded Cloud Architecture capability record. -/
def capCloud : Capability :=
  ⟨"Technology", ["alice.smith@slalom.com", "bob.johnson@slalom.com"]⟩

/-- The pending request carol submits for Cloud Architecture. -/
def r0 : PendingRequest := ⟨"Cloud Architecture", "carol@slalom.com", "carol", "t0"⟩

/-- The state after carol submits her registration request. -/
def st1 : AppState :=
  { capabilities := initialState.capabilities, pending_registration_requests := [r0] }

/-- The state after a wildcard practice lead then registers carol directly:
her email is on the Cloud Architecture roster while her request is still
pending. -/
def st2 : AppState :=
  { capabilities := (updateCap initialState.capabilities "Cloud Architecture"
      (fun c => { c with consultants := c.consultants ++ ["carol@slalom.com"] })),
    pending_registration_requests := [r0] }

/-- The state after a practice lead registers carol starting from the seeded
state (no pending request involved). -/
def stLead : AppState :=
  { capabilities := (updateCap initialState.capabilities "Cloud Architecture"
      (fun c => { c with consultants := c.consultants ++ ["carol@slalom.com"] })),
    pending_registration_requests := [] }

/-- A stand-in for the external pbkdf2 hash primitive. -/
def hashA : String → String → Nat → String := fun _ _ _ => "aa"

/-- A credential store whose single user has a well-formed stored hash. -/
def users0 : List UserRecord :=
  [⟨"u", "u@x.com", "consultant", [], "pbkdf2_sha256$1$salt$bb"⟩]

/-- A credential store whose single user has a four-field hash with the
recognized algorithm tag but a non-numeric iterations field. -/
def usersBad : List UserRecord :=
  [⟨"u", "u@x.com", "consultant", [], "pbkdf2_sha256$notanint$salt$bb"⟩]

/-! ### Helper lemmas -/

theorem lookupCap_updateCap_self (caps : List (String × Capability))
    (name : String) (f : Capability → Capability) :
    lookupCap (updateCap caps name f) name = (lookupCap caps name).map f := by
  induction caps with
  | nil => rfl
  | cons kv rest ih =>
    simp only [updateCap, List.map_cons] at ih ⊢
    by_cases h1 : kv.1 = name
    · simp [lookupCap, h1]
    · simp only [if_neg h1, lookupCap, h1, if_false]
      exact ih

theorem lookupCap_updateCap_ne (caps : List (String × Capability))
    (name k : String) (f : Capability → Capability) (h : k ≠ name) :
    lookupCap (updateCap caps name f) k = lookupCap caps k := by
  induction caps with
  | nil => rfl
  | cons kv rest ih =>
    simp only [updateCap, List.map_cons] at ih ⊢
    by_cases h1 : kv.1 = name
    · have hk : ¬ kv.1 = k := by rw [h1]; exact fun hk => h hk.symm
      simp only [if_pos h1, lookupCap, hk, if_false]
      exact ih
    · simp only [if_neg h1, lookupCap]
      by_cases h2 : kv.1 = k
      · simp [h2]
      · simp only [if_neg h2]
        exact ih

theorem hppp_lookup {caps : List (String × Capability)} {u : SessionUser}
    {n : String} (h : has_practice_area_permission caps u n = true) :
    ∃ cap, lookupCap caps n = some cap ∧ u.role = "practice_lead" := by
  unfold has_practice_area_permission at h
  cases hl : lookupCap caps n with
  | none => rw [hl] at h; exact absurd h (by simp)
  | some cap =>
    rw [hl] at h
    by_cases hr : u.role = "practice_lead"
    · exact ⟨cap, rfl, hr⟩
    · simp [hr] at h

theorem find_pending_none_iff {l : List PendingRequest} {n e : String} :
    find_pending_request l n e = none ↔
      ∀ r ∈ l, ¬ (r.capability_name = n ∧ lower r.email = lower e) := by
  simp [find_pending_request, List.find?_eq_none]

theorem find_pending_some {l : List PendingRequest} {n e : String}
    {r : PendingRequest} (h : find_pending_request l n e = some r) :
    r ∈ l ∧ r.capability_name = n ∧ lower r.email = lower e := by
  refine ⟨List.mem_of_find?_eq_some h, ?_⟩
  have := List.find?_some h
  simpa using this

theorem is_consultant_registered_append (cap : Capability) (cs : List String)
    (e x : String) :
    is_consultant_registered ⟨cap.practice_area, cs ++ [x]⟩ e =
      (is_consultant_registered ⟨cap.practice_area, cs⟩ e || (lower x == lower e)) := by
  simp [is_consultant_registered]

theorem is_consultant_registered_congr (cap : Capability) {a b : String}
    (h : lower a = lower b) :
    is_consultant_registered cap a = is_consultant_registered cap b := by
  simp [is_consultant_registered, h]

theorem remove_consultant_of_not_registered {cs : List String} {e : String}
    (h : cs.any (fun c => lower c == lower e) = false) :
    remove_consultant cs e =
      .error (.httpError 400 "Consultant is not registered for this capability") := by
  induction cs with
  | nil => rfl
  | cons c rest ih =>
    simp only [List.any_cons, Bool.or_eq_false_iff] at h
    simp [remove_consultant, h.1, ih h.2]

theorem remove_consultant_sublist {cs cs' : List String} {e : String}
    (h : remove_consultant cs e = .ok cs') : List.Sublist cs' cs := by
  induction cs generalizing cs' with
  | nil => simp [remove_consultant] at h
  | cons c rest ih =>
    simp only [remove_consultant] at h
    by_cases hc : (lower c == lower e) = true
    · simp [hc] at h
      subst h
      exact List.sublist_cons_self c rest
    · simp only [hc, if_false] at h
      cases hrec : remove_consultant rest e with
      | ok rest' =>
        rw [hrec] at h
        simp at h
        subst h
        exact List.Sublist.cons₂ c (ih hrec)
      | error e' => rw [hrec] at h; exact absurd h (by simp)

theorem remove_consultant_ok_of_registered {cs : List String} {e : String}
    (h : cs.any (fun c => lower c == lower e) = true) :
    ∃ cs', remove_consultant cs e = .ok cs' := by
  induction cs with
  | nil => simp at h
  | cons c rest ih =>
    simp only [List.any_cons, Bool.or_eq_true] at h
    by_cases hc : (lower c == lower e) = true
    · exact ⟨rest, by simp [remove_consultant, hc]⟩
    · have hr : rest.any (fun c => lower c == lower e) = true := by
        rcases h with h | h
        · exact absurd h hc
        · exact h
      obtain ⟨cs', hcs'⟩ := ih hr
      exact ⟨c :: cs', by simp [remove_consultant, hc, hcs']⟩

theorem any_false_of_sublist {l l' : List String} {p : String → Bool}
    (hs : List.Sublist l' l) (h : l.any p = false) : l'.any p = false := by
  rw [Bool.eq_false_iff] at h ⊢
  intro hc
  rw [List.any_eq_true] at hc
  obtain ⟨x, hx, hpx⟩ := hc
  exact h (List.any_eq_true.mpr ⟨x, hs.subset hx, hpx⟩)

/-! ### Inversion lemmas: what a successful handler call implies -/

theorem register_ok_inv {st : AppState} {auth : Option SessionUser}
    {n e t : String} {st' : AppState} {m : String}
    (h : register_for_capability st auth n e t = .ok (st', m)) :
    ∃ u cap, auth = some u ∧ lookupCap st.capabilities n = some cap ∧
      is_consultant_registered cap e = false ∧
      ((u.role = "consultant" ∧ lower u.email = lower e ∧
         find_pending_request st.pending_registration_requests n e = none ∧
         st' = { st with pending_registration_requests :=
                   st.pending_registration_requests ++ [⟨n, e, u.username, t⟩] }) ∨
       (u.role = "practice_lead" ∧
         has_practice_area_permission st.capabilities u n = true ∧
         st' = { st with capabilities :=
                   (updateCap st.capabilities n
                     (fun c => { c with consultants := c.consultants ++ [e] })) })) := by
  cases auth with
  | none => simp [register_for_capability, get_authenticated_user] at h
  | some u =>
    simp only [register_for_capability, get_authenticated_user] at h
    cases hcap : lookupCap st.capabilities n with
    | none => rw [hcap] at h; exact absurd h (by simp)
    | some cap =>
      rw [hcap] at h
      by_cases hreg : is_consultant_registered cap e = true
      · simp [hreg] at h
      · rw [Bool.not_eq_true] at hreg
        refine ⟨u, cap, rfl, rfl, hreg, ?_⟩
        simp only [hreg, Bool.false_eq_true, if_false] at h
        by_cases hcons : u.role = "consultant"
        · rw [if_pos hcons] at h
          by_cases hemail : lower u.email = lower e
          · rw [if_neg (not_not_intro hemail)] at h
            cases hfp : find_pending_request st.pending_registration_requests n e with
            | some r => rw [hfp] at h; simp at h
            | none =>
              rw [hfp] at h
              simp only [Option.isSome_none, Bool.false_eq_true, if_false,
                Except.ok.injEq, Prod.mk.injEq] at h
              exact Or.inl ⟨hcons, hemail, rfl, h.1.symm⟩
          · rw [if_pos hemail] at h; exact absurd h (by simp)
        · rw [if_neg hcons] at h
          by_cases hlead : u.role = "practice_lead"
          · rw [if_pos hlead] at h
            by_cases hperm : has_practice_area_permission st.capabilities u n = true
            · rw [if_neg (not_not_intro hperm)] at h
              simp only [Except.ok.injEq, Prod.mk.injEq] at h
              exact Or.inr ⟨hlead, hperm, h.1.symm⟩
            · rw [if_pos hperm] at h; exact absurd h (by simp)
          · rw [if_neg hlead] at h; exact absurd h (by simp)

theorem approve_ok_inv {st : AppState} {auth : Option SessionUser}
    {n e : String} {st' : AppState} {m : String}
    (h : approve_registration_request st auth n e = .ok (st', m)) :
    ∃ u cap r, auth = some u ∧ u.role = "practice_lead" ∧
      lookupCap st.capabilities n = some cap ∧
      has_practice_area_permission st.capabilities u n = true ∧
      find_pending_request st.pending_registration_requests n e = some r ∧
      st' = { st with
              capabilities :=
                (if is_consultant_registered cap e then st.capabilities
                 else updateCap st.capabilities n
                   (fun c => { c with consultants := c.consultants ++ [e] })),
              pending_registration_requests :=
                (st.pending_registration_requests.erase r) } := by
  cases auth with
  | none => simp [approve_registration_request, require_practice_lead,
      get_authenticated_user] at h
  | some u =>
    simp only [approve_registration_request, require_practice_lead,
      get_authenticated_user] at h
    by_cases hlead : u.role = "practice_lead"
    · simp only [hlead, ne_eq, not_true_eq_false, if_false] at h
      cases hcap : lookupCap st.capabilities n with
      | none => rw [hcap] at h; exact absurd h (by simp)
      | some cap =>
        rw [hcap] at h
        by_cases hperm : has_practice_area_permission st.capabilities u n = true
        · simp only [hperm, not_true_eq_false, if_false] at h
          cases hfp : find_pending_request st.pending_registration_requests n e with
          | none => rw [hfp] at h; exact absurd h (by simp)
          | some r =>
            rw [hfp] at h
            simp only [Except.ok.injEq, Prod.mk.injEq] at h
            exact ⟨u, cap, r, rfl, hlead, rfl, hperm, rfl, h.1.symm⟩
        · simp [hperm] at h
    · simp [hlead] at h

theorem reject_ok_inv {st : AppState} {auth : Option SessionUser}
    {n e : String} {st' : AppState} {m : String}
    (h : reject_registration_request st auth n e = .ok (st', m)) :
    ∃ u r, auth = some u ∧ u.role = "practice_lead" ∧
      (lookupCap st.capabilities n).isSome = true ∧
      has_practice_area_permission st.capabilities u n = true ∧
      find_pending_request st.pending_registration_requests n e = some r ∧
      st' = { st with pending_registration_requests :=
                (st.pending_registration_requests.erase r) } := by
  cases auth with
  | none => simp [reject_registration_request, require_practice_lead,
      get_authenticated_user] at h
  | some u =>
    simp only [reject_registration_request, require_practice_lead,
      get_authenticated_user] at h
    by_cases hlead : u.role = "practice_lead"
    · simp only [hlead, ne_eq, not_true_eq_false, if_false] at h
      cases hcap : lookupCap st.capabilities n with
      | none => rw [hcap] at h; exact absurd h (by simp)
      | some cap =>
        rw [hcap] at h
        by_cases hperm : has_practice_area_permission st.capabilities u n = true
        · simp only [hperm, not_true_eq_false, if_false] at h
          cases hfp : find_pending_request st.pending_registration_requests n e with
          | none => rw [hfp] at h; exact absurd h (by simp)
          | some r =>
            rw [hfp] at h
            simp only [Except.ok.injEq, Prod.mk.injEq] at h
            exact ⟨u, r, rfl, hlead, by simp [hcap], hperm, rfl, h.1.symm⟩
        · simp [hperm] at h
    · simp [hlead] at h

theorem unregister_ok_inv {st : AppState} {auth : Option SessionUser}
    {n e : String} {st' : AppState} {m : String}
    (h : unregister_from_capability st auth n e = .ok (st', m)) :
    ∃ u cap cs', auth = some u ∧ u.role = "practice_lead" ∧
      lookupCap st.capabilities n = some cap ∧
      has_practice_area_permission st.capabilities u n = true ∧
      remove_consultant cap.consultants e = .ok cs' ∧
      st' = { st with capabilities :=
                (updateCap st.capabilities n
                  (fun c => { c with consultants := cs' })) } := by
  cases auth with
  | none => simp [unregister_from_capability, require_practice_lead,
      get_authenticated_user] at h
  | some u =>
    simp only [unregister_from_capability, require_practice_lead,
      get_authenticated_user] at h
    by_cases hlead : u.role = "practice_lead"
    · simp only [hlead, ne_eq, not_true_eq_false, if_false] at h
      cases hcap : lookupCap st.capabilities n with
      | none => rw [hcap] at h; exact absurd h (by simp)
      | some cap =>
        rw [hcap] at h
        by_cases hperm : has_practice_area_permission st.capabilities u n = true
        · simp only [hperm, not_true_eq_false, if_false] at h
          cases hrm : remove_consultant cap.consultants e with
          | error e' => rw [hrm] at h; exact absurd h (by simp)
          | ok cs' =>
            rw [hrm] at h
            simp only [Except.ok.injEq, Prod.mk.injEq] at h
            exact ⟨u, cap, cs', rfl, hlead, rfl, hperm, hrm, h.1.symm⟩
        · simp [hperm] at h
    · simp [hlead] at h

/-! ### Invariant preservation -/

theorem pendingUnique_sublist {l l' : List PendingRequest}
    (hs : List.Sublist l' l) (h : pendingUnique l) : pendingUnique l' :=
  List.Pairwise.sublist hs h

/-- Under the uniqueness invariant, after erasing the pending request `r`
matching `(n, e)`, no request matching `(n, e)` remains. -/
theorem pendingUnique_erase_no_match {l : List PendingRequest}
    {r r' : PendingRequest} {n e : String}
    (hu : pendingUnique l) (hr : r ∈ l)
    (hrn : r.capability_name = n) (hre : lower r.email = lower e)
    (hr'mem : r' ∈ l.erase r)
    (hr'n : r'.capability_name = n) (hr'e : lower r'.email = lower e) : False := by
  induction l with
  | nil => cases hr
  | cons x xs ih =>
    rw [pendingUnique, List.pairwise_cons] at hu
    obtain ⟨hu1, hu2⟩ := hu
    rw [List.erase_cons] at hr'mem
    by_cases hx : x = r
    · rw [if_pos (beq_iff_eq.mpr hx)] at hr'mem
      exact hu1 r' hr'mem ⟨by rw [hx, hrn, hr'n], by rw [hx, hre, hr'e]⟩
    · rw [if_neg (by simp [beq_eq_false_iff_ne.mpr hx])] at hr'mem
      have hrxs : r ∈ xs := by
        rcases List.mem_cons.mp hr with h | h
        · exact absurd h.symm hx
        · exact h
      rcases List.mem_cons.mp hr'mem with h | h
      · subst h
        exact hu1 r hrxs ⟨by rw [hr'n, hrn], by rw [hr'e, hre]⟩
      · exact ih hu2 hrxs h

/-- The per-pending-entry form of `RegPendingDisjoint`. -/
theorem regPendingDisjoint_iff (st : AppState) :
    RegPendingDisjoint st ↔
      ∀ r ∈ st.pending_registration_requests, ∀ cap,
        lookupCap st.capabilities r.capability_name = some cap →
          is_consultant_registered cap r.email = false := by
  constructor
  · intro h r hr cap hcap
    exact h r.capability_name r.email ⟨r, hr, rfl, rfl⟩ cap hcap
  · intro h C E ⟨r, hr, hn, he⟩ cap hcap
    have := h r hr cap (by rw [hn]; exact hcap)
    rw [is_consultant_registered_congr cap he] at this
    exact this

theorem goodInv_register {st : AppState} {auth : Option SessionUser}
    {n e t : String} {st' : AppState} {m : String}
    (hok : register_for_capability st auth n e t = .ok (st', m))
    (hnp : ∀ u, auth = some u → u.role = "practice_lead" →
      find_pending_request st.pending_registration_requests n e = none)
    (h : GoodInv st) : GoodInv st' := by
  obtain ⟨hu, hd⟩ := h
  rw [regPendingDisjoint_iff] at hd
  obtain ⟨u, cap, hauth, hcap, hreg, hbranch⟩ := register_ok_inv hok
  rcases hbranch with ⟨hrole, hemail, hfp, hst'⟩ | ⟨hrole, hperm, hst'⟩
  · -- consultant submission: a pending request is appended, rosters unchanged
    subst hst'
    constructor
    · rw [pendingUnique]
      rw [List.pairwise_append]
      refine ⟨hu, List.pairwise_singleton _ _, ?_⟩
      intro a ha b hb
      rw [List.mem_singleton] at hb
      subst hb
      have := find_pending_none_iff.mp hfp a ha
      exact this
    · rw [regPendingDisjoint_iff]
      intro r hr cap' hcap'
      rcases List.mem_append.mp hr with hr | hr
      · exact hd r hr cap' hcap'
      · rw [List.mem_singleton] at hr
        subst hr
        rw [hcap] at hcap'
        cases hcap'
        exact hreg
  · -- practice-lead direct registration with no matching pending request
    have hfp := hnp u hauth hrole
    subst hst'
    constructor
    · exact hu
    · rw [regPendingDisjoint_iff]
      intro r hr cap' hcap'
      by_cases hn : r.capability_name = n
      · rw [hn, lookupCap_updateCap_self, hcap] at hcap'
        cases hcap'
        show is_consultant_registered ⟨cap.practice_area, cap.consultants ++ [e]⟩ r.email = false
        have h1 : is_consultant_registered cap r.email = false := by
          have := hd r hr cap
          rw [hn] at this
          exact this hcap
        have h2 : (lower e == lower r.email) = false := by
          rw [beq_eq_false_iff_ne]
          intro hee
          exact find_pending_none_iff.mp hfp r hr ⟨hn, hee.symm⟩
        calc is_consultant_registered ⟨cap.practice_area, cap.consultants ++ [e]⟩ r.email
            = (is_consultant_registered ⟨cap.practice_area, cap.consultants⟩ r.email
                || (lower e == lower r.email)) :=
              is_consultant_registered_append cap cap.consultants r.email e
          _ = false := by rw [h2, Bool.or_false]; exact h1
      · rw [lookupCap_updateCap_ne _ _ _ _ hn] at hcap'
        exact hd r hr cap' hcap'

theorem goodInv_approve {st : AppState} {auth : Option SessionUser}
    {n e : String} {st' : AppState} {m : String}
    (hok : approve_registration_request st auth n e = .ok (st', m))
    (h : GoodInv st) : GoodInv st' := by
  obtain ⟨hu, hd⟩ := h
  rw [regPendingDisjoint_iff] at hd
  obtain ⟨u, cap, r, hauth, hrole, hcap, hperm, hfp, hst'⟩ := approve_ok_inv hok
  obtain ⟨hrmem, hrn, hre⟩ := find_pending_some hfp
  subst hst'
  constructor
  · exact pendingUnique_sublist (List.erase_sublist r _) hu
  · rw [regPendingDisjoint_iff]
    intro r' hr' cap' hcap'
    have hr'pend : r' ∈ st.pending_registration_requests :=
      (List.erase_sublist r _).subset hr'
    by_cases hregd : is_consultant_registered cap e = true
    · simp only [hregd, if_true] at hcap'
      exact hd r' hr'pend cap' hcap'
    · rw [Bool.not_eq_true] at hregd
      simp only [hregd, Bool.false_eq_true, if_false] at hcap'
      by_cases hn : r'.capability_name = n
      · rw [hn, lookupCap_updateCap_self, hcap] at hcap'
        cases hcap'
        show is_consultant_registered ⟨cap.practice_area, cap.consultants ++ [e]⟩ r'.email = false
        have h1 : is_consultant_registered cap r'.email = false := by
          have := hd r' hr'pend cap
          rw [hn] at this
          exact this hcap
        have h2 : (lower e == lower r'.email) = false := by
          rw [beq_eq_false_iff_ne]
          intro hee
          exact pendingUnique_erase_no_match hu hrmem hrn hre hr' hn hee.symm
        calc is_consultant_registered ⟨cap.practice_area, cap.consultants ++ [e]⟩ r'.email
            = (is_consultant_registered ⟨cap.practice_area, cap.consultants⟩ r'.email
                || (lower e == lower r'.email)) :=
              is_consultant_registered_append cap cap.consultants r'.email e
          _ = false := by rw [h2, Bool.or_false]; exact h1
      · rw [lookupCap_updateCap_ne _ _ _ _ hn] at hcap'
        exact hd r' hr'pend cap' hcap'

theorem goodInv_reject {st : AppState} {auth : Option SessionUser}
    {n e : String} {st' : AppState} {m : String}
    (hok : reject_registration_request st auth n e = .ok (st', m))
    (h : GoodInv st) : GoodInv st' := by
  obtain ⟨hu, hd⟩ := h
  rw [regPendingDisjoint_iff] at hd
  obtain ⟨u, r, hauth, hrole, hcap, hperm, hfp, hst'⟩ := reject_ok_inv hok
  subst hst'
  constructor
  · exact pendingUnique_sublist (List.erase_sublist r _) hu
  · rw [regPendingDisjoint_iff]
    intro r' hr' cap' hcap'
    exact hd r' ((List.erase_sublist r _).subset hr') cap' hcap'

theorem goodInv_unregister {st : AppState} {auth : Option SessionUser}
    {n e : String} {st' : AppState} {m : String}
    (hok : unregister_from_capability st auth n e = .ok (st', m))
    (h : GoodInv st) : GoodInv st' := by
  obtain ⟨hu, hd⟩ := h
  rw [regPendingDisjoint_iff] at hd
  obtain ⟨u, cap, cs', hauth, hrole, hcap, hperm, hrm, hst'⟩ := unregister_ok_inv hok
  subst hst'
  refine ⟨hu, ?_⟩
  rw [regPendingDisjoint_iff]
  intro r' hr' cap' hcap'
  by_cases hn : r'.capability_name = n
  · rw [hn, lookupCap_updateCap_self, hcap] at hcap'
    cases hcap'
    show is_consultant_registered ⟨cap.practice_area, cs'⟩ r'.email = false
    have h1 : is_consultant_registered cap r'.email = false := by
      have := hd r' hr' cap
      rw [hn] at this
      exact this hcap
    exact any_false_of_sublist (remove_consultant_sublist hrm) h1
  · rw [lookupCap_updateCap_ne _ _ _ _ hn] at hcap'
    exact hd r' hr' cap' hcap'

theorem goodInv_initial : GoodInv initialState := by
  constructor
  · exact List.Pairwise.nil
  · intro C E hE cap hcap
    obtain ⟨r, hr, -⟩ := hE
    cases hr

theorem pendingUnique_register_ok {st : AppState} {auth : Option SessionUser}
    {n e t : String} {st' : AppState} {m : String}
    (hok : register_for_capability st auth n e t = .ok (st', m))
    (hu : pendingUnique st.pending_registration_requests) :
    pendingUnique st'.pending_registration_requests := by
  obtain ⟨u, cap, hauth, hcap, hreg, hbranch⟩ := register_ok_inv hok
  rcases hbranch with ⟨hrole, hemail, hfp, hst'⟩ | ⟨hrole, hperm, hst'⟩
  · subst hst'
    rw [pendingUnique, List.pairwise_append]
    refine ⟨hu, List.pairwise_singleton _ _, ?_⟩
    intro a ha b hb
    rw [List.mem_singleton] at hb
    subst hb
    exact find_pending_none_iff.mp hfp a ha
  · subst hst'
    exact hu

theorem pendingUnique_approve_ok {st : AppState} {auth : Option SessionUser}
    {n e : String} {st' : AppState} {m : String}
    (hok : approve_registration_request st auth n e = .ok (st', m))
    (hu : pendingUnique st.pending_registration_requests) :
    pendingUnique st'.pending_registration_requests := by
  obtain ⟨u, cap, r, -, -, -, -, -, hst'⟩ := approve_ok_inv hok
  subst hst'
  exact pendingUnique_sublist (List.erase_sublist r _) hu

theorem pendingUnique_reject_ok {st : AppState} {auth : Option SessionUser}
    {n e : String} {st' : AppState} {m : String}
    (hok : reject_registration_request st auth n e = .ok (st', m))
    (hu : pendingUnique st.pending_registration_requests) :
    pendingUnique st'.pending_registration_requests := by
  obtain ⟨u, r, -, -, -, -, -, hst'⟩ := reject_ok_inv hok
  subst hst'
  exact pendingUnique_sublist (List.erase_sublist r _) hu

theorem pendingUnique_unregister_ok {st : AppState} {auth : Option SessionUser}
    {n e : String} {st' : AppState} {m : String}
    (hok : unregister_from_capability st auth n e = .ok (st', m))
    (hu : pendingUnique st.pending_registration_requests) :
    pendingUnique st'.pending_registration_requests := by
  obtain ⟨u, cap, cs', -, -, -, -, -, hst'⟩ := unregister_ok_inv hok
  subst hst'
  exact hu

/-! ### Claim theorems -/

/-- Claim C2: `has_practice_area_permission` returns false when the capability
name is not a registry key or the user's role is not `practice_lead`, and
otherwise returns true exactly when the user's practice areas contain the
wildcard `"*"` or contain the capability's practice area.  (The embedding
renders it as a pure function of the registry, so it modifies no state by
construction.) -/
theorem claim_C2_permission_spec (caps : List (String × Capability))
    (u : SessionUser) (n : String) :
    (lookupCap caps n = none → has_practice_area_permission caps u n = false) ∧
    (u.role ≠ "practice_lead" → has_practice_area_permission caps u n = false) ∧
    (∀ cap, lookupCap caps n = some cap → u.role = "practice_lead" →
      (has_practice_area_permission caps u n = true ↔
        "*" ∈ u.practice_areas ∨ cap.practice_area ∈ u.practice_areas)) := by
  refine ⟨?_, ?_, ?_⟩
  · intro h
    simp [has_practice_area_permission, h]
  · intro h
    unfold has_practice_area_permission
    cases lookupCap caps n with
    | none => rfl
    | some cap => simp [h]
  · intro cap hcap hrole
    by_cases hw : "*" ∈ u.practice_areas
    · simp [has_practice_area_permission, hcap, hrole, hw]
    · simp [has_practice_area_permission, hcap, hrole, hw]

/-- Witness for C2: the wildcard lead may administer Cloud Architecture. -/
theorem claim_C2_witness :
    has_practice_area_permission initialState.capabilities pat "Cloud Architecture" = true :=
  ((claim_C2_permission_spec initialState.capabilities pat "Cloud Architecture").2.2
    capCloud (by decide) rfl).mpr (Or.inl (by decide))

/-- Claim C5: for an existing capability and an email not on its roster, a
consultant caller whose own email differs case-insensitively from the target
fails with the 403 Forbidden error; no successor state is produced, so the
pending list and roster are untouched. -/
theorem claim_C5_consultant_other_forbidden (st : AppState) (u : SessionUser)
    (n e t : String) (cap : Capability)
    (hcap : lookupCap st.capabilities n = some cap)
    (hreg : is_consultant_registered cap e = false)
    (hrole : u.role = "consultant")
    (hemail : lower u.email ≠ lower e) :
    register_for_capability st (some u) n e t =
      .error (.httpError 403 "Consultants can only request registration for themselves") := by
  simp [register_for_capability, get_authenticated_user, hcap, hreg, hrole, hemail]

/-- Witness for C5: carol requesting registration for eve is Forbidden. -/
theorem claim_C5_witness :
    register_for_capability initialState (some carol) "Cloud Architecture"
        "eve@slalom.com" "t0" =
      .error (.httpError 403 "Consultants can only request registration for themselves") :=
  claim_C5_consultant_other_forbidden initialState carol "Cloud Architecture"
    "eve@slalom.com" "t0" capCloud (by decide) (by decide) rfl (by decide)

/-- Claim C10: the roster-membership check precedes the consultant self-only
check, so a consultant probing an already-registered email that is not their
own receives the 400 already-registered Conflict rather than 403 Forbidden;
an error result produces no successor state. -/
theorem claim_C10_conflict_before_self_check (st : AppState) (u : SessionUser)
    (n e t : String) (cap : Capability)
    (hcap : lookupCap st.capabilities n = some cap)
    (hreg : is_consultant_registered cap e = true)
    (hrole : u.role = "consultant")
    (hemail : lower u.email ≠ lower e) :
    register_for_capability st (some u) n e t =
      .error (.httpError 400 "Consultant is already registered for this capability") := by
  simp [register_for_capability, get_authenticated_user, hcap, hreg]

/-- Witness for C10: carol probing alice's registered email gets the Conflict
error, not Forbidden. -/
theorem claim_C10_witness :
    register_for_capability initialState (some carol) "Cloud Architecture"
        "alice.smith@slalom.com" "t0" =
      .error (.httpError 400 "Consultant is already registered for this capability") :=
  claim_C10_conflict_before_self_check initialState carol "Cloud Architecture"
    "alice.smith@slalom.com" "t0" capCloud (by decide) (by decide) rfl (by decide)

/-- Claim C4: after a practice lead successfully registers an email for a
capability, the email is on that capability's roster (case-insensitively); a
second register call for the same pair by any authenticated caller fails with
the 400 already-registered Conflict and produces no state, and the roster has
grown by at most one entry across the two calls. -/
theorem claim_C4_lead_register_then_conflict (st : AppState) (u u' : SessionUser)
    (n e t t' : String) (st' : AppState) (m : String)
    (hrole : u.role = "practice_lead")
    (hok : register_for_capability st (some u) n e t = .ok (st', m)) :
    (roster st' n).any (fun c => lower c == lower e) = true ∧
    register_for_capability st' (some u') n e t' =
      .error (.httpError 400 "Consultant is already registered for this capability") ∧
    (roster st' n).length ≤ (roster st n).length + 1 := by
  obtain ⟨u0, cap, hauth, hcap, hreg, hbranch⟩ := register_ok_inv hok
  have hu0 : u0 = u := by injection hauth with h; exact h.symm
  subst hu0
  rcases hbranch with ⟨hc, -, -, -⟩ | ⟨-, hperm, hst'⟩
  · rw [hrole] at hc
    exact absurd hc (by decide)
  · subst hst'
    have hcap' : lookupCap (updateCap st.capabilities n
          (fun c => { c with consultants := c.consultants ++ [e] })) n =
        some ⟨cap.practice_area, cap.consultants ++ [e]⟩ := by
      rw [lookupCap_updateCap_self, hcap]
      rfl
    have hro : roster { st with capabilities := (updateCap st.capabilities n
        (fun c => { c with consultants := c.consultants ++ [e] })) } n =
        cap.consultants ++ [e] := by
      simp only [roster, hcap']
    have hreg' : is_consultant_registered ⟨cap.practice_area, cap.consultants ++ [e]⟩ e = true := by
      simp [is_consultant_registered]
    refine ⟨?_, ?_, ?_⟩
    · rw [hro]
      simp
    · simp [register_for_capability, get_authenticated_user, hcap', hreg']
    · rw [hro, roster, hcap]
      simp

/-- Witness for C4: the wildcard lead registers carol for Cloud Architecture;
an immediate duplicate attempt by carol herself is a Conflict. -/
theorem claim_C4_witness :
    register_for_capability stLead (some carol) "Cloud Architecture"
        "carol@slalom.com" "t1" =
      .error (.httpError 400 "Consultant is already registered for this capability") :=
  (claim_C4_lead_register_then_conflict initialState pat carol "Cloud Architecture"
    "carol@slalom.com" "t0" "t1" stLead
    "Registered carol@slalom.com for Cloud Architecture" rfl rfl).2.1

/-- Claim C3: an authorized practice lead approving an existing pending
request succeeds; the pending request is erased from the pending list, the
email is on the roster afterwards, and the roster is extended only when the
email was not already registered (otherwise the registry is untouched, with
no duplicate entry created). -/
theorem claim_C3_approve_pending (st : AppState) (u : SessionUser)
    (n e : String) (r : PendingRequest) (cap : Capability)
    (hrole : u.role = "practice_lead")
    (hperm : has_practice_area_permission st.capabilities u n = true)
    (hcap : lookupCap st.capabilities n = some cap)
    (hfp : find_pending_request st.pending_registration_requests n e = some r) :
    ∃ st' m, approve_registration_request st (some u) n e = .ok (st', m) ∧
      st'.pending_registration_requests = st.pending_registration_requests.erase r ∧
      (roster st' n).any (fun c => lower c == lower e) = true ∧
      (is_consultant_registered cap e = true → st'.capabilities = st.capabilities) ∧
      (is_consultant_registered cap e = false →
        st'.capabilities = updateCap st.capabilities n
          (fun c => { c with consultants := c.consultants ++ [e] })) := by
  have happrove : approve_registration_request st (some u) n e =
      .ok ({ st with
             capabilities :=
               (if is_consultant_registered cap e then st.capabilities
                else updateCap st.capabilities n
                  (fun c => { c with consultants := c.consultants ++ [e] })),
             pending_registration_requests :=
               (st.pending_registration_requests.erase r) },
           s!"Approved registration for {e} on {n}") := by
    simp [approve_registration_request, require_practice_lead,
      get_authenticated_user, hrole, hcap, hperm, hfp]
  refine ⟨_, _, happrove, rfl, ?_, ?_, ?_⟩
  · by_cases hr : is_consultant_registered cap e = true
    · have : roster { st with
          capabilities :=
            (if is_consultant_registered cap e then st.capabilities
             else updateCap st.capabilities n
               (fun c => { c with consultants := c.consultants ++ [e] })),
          pending_registration_requests :=
            (st.pending_registration_requests.erase r) } n = cap.consultants := by
        rw [roster]
        simp only [hr, if_true]
        rw [hcap]
      rw [this]
      exact hr
    · rw [Bool.not_eq_true] at hr
      have : roster { st with
          capabilities :=
            (if is_consultant_registered cap e then st.capabilities
             else updateCap st.capabilities n
               (fun c => { c with consultants := c.consultants ++ [e] })),
          pending_registration_requests :=
            (st.pending_registration_requests.erase r) } n =
          cap.consultants ++ [e] := by
        rw [roster]
        simp only [hr, Bool.false_eq_true, if_false]
        show (match lookupCap (updateCap st.capabilities n _) n with
          | none => [] | some c => c.consultants) = cap.consultants ++ [e]
        rw [lookupCap_updateCap_self, hcap]
        rfl
      rw [this]
      simp
  · intro h
    simp [h]
  · intro h
    simp [h]

/-- Witness for C3: the wildcard lead approves carol's pending request. -/
theorem claim_C3_witness :
    ∃ st' m, approve_registration_request st1 (some pat) "Cloud Architecture"
        "carol@slalom.com" = .ok (st', m) ∧
      st'.pending_registration_requests = st1.pending_registration_requests.erase r0 ∧
      (roster st' "Cloud Architecture").any
        (fun c => lower c == lower "carol@slalom.com") = true ∧
      (is_consultant_registered capCloud "carol@slalom.com" = true →
        st'.capabilities = st1.capabilities) ∧
      (is_consultant_registered capCloud "carol@slalom.com" = false →
        st'.capabilities = updateCap st1.capabilities "Cloud Architecture"
          (fun c => { c with consultants := c.consultants ++ ["carol@slalom.com"] })) :=
  claim_C3_approve_pending st1 pat "Cloud Architecture" "carol@slalom.com" r0 capCloud
    rfl (by decide) (by decide) (by decide)

/-- Claim C6: every reachable state has at most one pending request per
(capability name, case-insensitive email) pair, and a consultant re-submitting
a pair that already has a pending request receives the 400 Conflict error
(producing no successor state, so the pending list is unchanged). -/
theorem claim_C6_pending_uniqueness :
    (∀ st, Reachable st → pendingUnique st.pending_registration_requests) ∧
    (∀ (st : AppState) (u : SessionUser) (n e t : String) (cap : Capability)
        (r : PendingRequest),
      lookupCap st.capabilities n = some cap →
      is_consultant_registered cap e = false →
      u.role = "consultant" →
      lower u.email = lower e →
      find_pending_request st.pending_registration_requests n e = some r →
      register_for_capability st (some u) n e t =
        .error (.httpError 400 "A pending registration request already exists")) := by
  constructor
  · intro st h
    induction h with
    | init => exact List.Pairwise.nil
    | step hr hs ih =>
      cases hs with
      | register _ _ _ _ _ _ _ hok => exact pendingUnique_register_ok hok ih
      | unregister _ _ _ _ _ _ hok => exact pendingUnique_unregister_ok hok ih
      | approve _ _ _ _ _ _ hok => exact pendingUnique_approve_ok hok ih
      | reject _ _ _ _ _ _ hok => exact pendingUnique_reject_ok hok ih
  · intro st u n e t cap r hcap hreg hrole hemail hfp
    simp [register_for_capability, get_authenticated_user, hcap, hreg, hrole,
      hemail, hfp]

/-- Witness for C6: the initial pending list is duplicate-free, and carol
re-submitting her pending Cloud Architecture request is a Conflict. -/
theorem claim_C6_witness :
    pendingUnique initialState.pending_registration_requests ∧
    register_for_capability st1 (some carol) "Cloud Architecture"
        "carol@slalom.com" "t1" =
      .error (.httpError 400 "A pending registration request already exists") :=
  ⟨claim_C6_pending_uniqueness.1 initialState Reachable.init,
   claim_C6_pending_uniqueness.2 st1 carol "Cloud Architecture" "carol@slalom.com"
     "t1" capCloud r0 (by decide) (by decide) rfl (by decide) (by decide)⟩

/-- Claim C7: unregister succeeds only for a practice lead passing the
practice-area permission check; with a practice-lead caller it fails 404
NotFound for an unknown capability, fails with the 400 BadRequest-class
not-in-roster error (distinct from NotFound) when no roster entry matches
case-insensitively, and otherwise removes exactly the first case-insensitive
match (the `remove_consultant` result) and succeeds. -/
theorem claim_C7_unregister_characterization :
    (∀ (st : AppState) (auth : Option SessionUser) (n e : String)
        (st' : AppState) (m : String),
      unregister_from_capability st auth n e = .ok (st', m) →
      ∃ u, auth = some u ∧ u.role = "practice_lead" ∧
        has_practice_area_permission st.capabilities u n = true) ∧
    (∀ (st : AppState) (u : SessionUser) (n e : String),
      u.role = "practice_lead" →
      lookupCap st.capabilities n = none →
      unregister_from_capability st (some u) n e =
        .error (.httpError 404 "Capability not found")) ∧
    (∀ (st : AppState) (u : SessionUser) (n e : String) (cap : Capability),
      u.role = "practice_lead" →
      has_practice_area_permission st.capabilities u n = true →
      lookupCap st.capabilities n = some cap →
      is_consultant_registered cap e = false →
      unregister_from_capability st (some u) n e =
        .error (.httpError 400 "Consultant is not registered for this capability")) ∧
    (∀ (st : AppState) (u : SessionUser) (n e : String) (cap : Capability)
        (cs' : List String),
      u.role = "practice_lead" →
      has_practice_area_permission st.capabilities u n = true →
      lookupCap st.capabilities n = some cap →
      remove_consultant cap.consultants e = .ok cs' →
      unregister_from_capability st (some u) n e =
        .ok ({ st with capabilities := (updateCap st.capabilities n
                 (fun c => { c with consultants := cs' })) },
             s!"Unregistered {e} from {n}")) := by
  refine ⟨?_, ?_, ?_, ?_⟩
  · intro st auth n e st' m hok
    obtain ⟨u, cap, cs', hauth, hrole, hcap, hperm, -, -⟩ := unregister_ok_inv hok
    exact ⟨u, hauth, hrole, hperm⟩
  · intro st u n e hrole hcap
    simp [unregister_from_capability, require_practice_lead,
      get_authenticated_user, hrole, hcap]
  · intro st u n e cap hrole hperm hcap hreg
    have hrm := @remove_consultant_of_not_registered cap.consultants e hreg
    simp [unregister_from_capability, require_practice_lead,
      get_authenticated_user, hrole, hperm, hcap, hrm]
  · intro st u n e cap cs' hrole hperm hcap hrm
    simp [unregister_from_capability, require_practice_lead,
      get_authenticated_user, hrole, hperm, hcap, hrm]

/-- Witness for C7: on the seeded state, the wildcard lead gets 404 for an
unknown capability, 400 for an email not on the Cloud Architecture roster,
and successfully removes alice by a case-insensitive match. -/
theorem claim_C7_witness :
    unregister_from_capability initialState (some pat) "Quantum" "x@x.com" =
      .error (.httpError 404 "Capability not found") ∧
    unregister_from_capability initialState (some pat) "Cloud Architecture"
        "carol@x.com" =
      .error (.httpError 400 "Consultant is not registered for this capability") ∧
    unregister_from_capability initialState (some pat) "Cloud Architecture"
        "ALICE.SMITH@slalom.com" =
      .ok ({ initialState with capabilities := (updateCap initialState.capabilities
               "Cloud Architecture"
               (fun c => { c with consultants := ["bob.johnson@slalom.com"] })) },
           "Unregistered ALICE.SMITH@slalom.com from Cloud Architecture") :=
  ⟨claim_C7_unregister_characterization.2.1 initialState pat "Quantum" "x@x.com"
     rfl (by decide),
   claim_C7_unregister_characterization.2.2.1 initialState pat "Cloud Architecture"
     "carol@x.com" capCloud rfl (by decide) (by decide) (by decide),
   claim_C7_unregister_characterization.2.2.2 initialState pat "Cloud Architecture"
     "ALICE.SMITH@slalom.com" capCloud ["bob.johnson@slalom.com"] rfl (by decide)
     (by decide) rfl⟩

/-- Claim C9: rejecting an existing pending request as an authorized practice
lead removes exactly that pending request and leaves the capabilities
registry (every roster) unchanged; reject fails with precisely the same
errors as approve on every input; and no successful reject ever changes the
registry. -/
theorem claim_C9_reject_characterization :
    (∀ (st : AppState) (u : SessionUser) (n e : String) (r : PendingRequest),
      u.role = "practice_lead" →
      has_practice_area_permission st.capabilities u n = true →
      find_pending_request st.pending_registration_requests n e = some r →
      reject_registration_request st (some u) n e =
        .ok ({ st with pending_registration_requests :=
                 (st.pending_registration_requests.erase r) },
             s!"Rejected registration request for {e} on {n}")) ∧
    (∀ (st : AppState) (auth : Option SessionUser) (n e : String) (err : PyError),
      reject_registration_request st auth n e = .error err ↔
        approve_registration_request st auth n e = .error err) ∧
    (∀ (st : AppState) (auth : Option SessionUser) (n e : String)
        (st' : AppState) (m : String),
      reject_registration_request st auth n e = .ok (st', m) →
      st'.capabilities = st.capabilities) := by
  refine ⟨?_, ?_, ?_⟩
  · intro st u n e r hrole hperm hfp
    obtain ⟨cap, hcap, -⟩ := hppp_lookup hperm
    simp [reject_registration_request, require_practice_lead,
      get_authenticated_user, hrole, hcap, hperm, hfp]
  · intro st auth n e err
    cases auth with
    | none =>
      simp [reject_registration_request, approve_registration_request,
        require_practice_lead, get_authenticated_user]
    | some u =>
      by_cases hrole : u.role = "practice_lead"
      · cases hcap : lookupCap st.capabilities n with
        | none =>
          simp [reject_registration_request, approve_registration_request,
            require_practice_lead, get_authenticated_user, hrole, hcap]
        | some cap =>
          by_cases hperm : has_practice_area_permission st.capabilities u n = true
          · cases hfp : find_pending_request st.pending_registration_requests n e with
            | none =>
              simp [reject_registration_request, approve_registration_request,
                require_practice_lead, get_authenticated_user, hrole, hcap,
                hperm, hfp]
            | some r =>
              simp [reject_registration_request, approve_registration_request,
                require_practice_lead, get_authenticated_user, hrole, hcap,
                hperm, hfp]
          · simp [reject_registration_request, approve_registration_request,
              require_practice_lead, get_authenticated_user, hrole, hcap, hperm]
      · simp [reject_registration_request, approve_registration_request,
          require_practice_lead, get_authenticated_user, hrole]
  · intro st auth n e st' m hok
    obtain ⟨u, r, -, -, -, -, -, hst'⟩ := reject_ok_inv hok
    subst hst'
    rfl

/-- Witness for C9: the wildcard lead rejects carol's pending request; the
registry is untouched and only the pending entry disappears. -/
theorem claim_C9_witness :
    reject_registration_request st1 (some pat) "Cloud Architecture"
        "carol@slalom.com" =
      .ok ({ st1 with pending_registration_requests :=
               (st1.pending_registration_requests.erase r0) },
           "Rejected registration request for carol@slalom.com on Cloud Architecture") :=
  claim_C9_reject_characterization.1 st1 pat "Cloud Architecture"
    "carol@slalom.com" r0 rfl (by decide) (by decide)

/-- Counterexample to claim C1 as stated: the state reached by carol
submitting a pending request for Cloud Architecture and a wildcard practice
lead then registering her directly is reachable, yet carol's email is on the
Cloud Architecture roster while her pending request still exists — the
practice-lead branch of `register_for_capability` never consults the pending
list. -/
theorem claim_C1_counterexample : Reachable st2 ∧ ¬ RegPendingDisjoint st2 := by
  constructor
  · have s1 : Step initialState st1 :=
      Step.register (some carol) "Cloud Architecture" "carol@slalom.com"
        "t0" initialState st1
        "Registration request submitted for carol@slalom.com on Cloud Architecture. A practice lead must approve it."
        rfl
    have s2 : Step st1 st2 :=
      Step.register (some pat) "Cloud Architecture" "carol@slalom.com"
        "t1" st1 st2
        "Registered carol@slalom.com for Cloud Architecture"
        rfl
    exact Reachable.step (Reachable.step Reachable.init s1) s2
  · intro h
    have hmem : r0 ∈ st2.pending_registration_requests := by
      show r0 ∈ [r0]
      exact List.mem_singleton.mpr rfl
    have := h "Cloud Architecture" "carol@slalom.com" ⟨r0, hmem, rfl, rfl⟩
      ⟨"Technology", ["alice.smith@slalom.com", "bob.johnson@slalom.com",
        "carol@slalom.com"]⟩ (by decide)
    exact absurd this (by decide)

/-- Claim C1 (amended): the registered/pending disjointness invariant (with
the pending-uniqueness invariant it relies on) holds initially and is
preserved by consultant submission, approval, rejection and unregistration;
practice-lead direct registration preserves it exactly when no pending
request for the target pair exists at the time of the call. -/
theorem claim_C1_amended_preservation :
    GoodInv initialState ∧
    (∀ (st : AppState) (auth : Option SessionUser) (n e t : String)
        (st' : AppState) (m : String),
      register_for_capability st auth n e t = .ok (st', m) →
      (∀ u, auth = some u → u.role = "practice_lead" →
        find_pending_request st.pending_registration_requests n e = none) →
      GoodInv st → GoodInv st') ∧
    (∀ (st : AppState) (auth : Option SessionUser) (n e : String)
        (st' : AppState) (m : String),
      approve_registration_request st auth n e = .ok (st', m) →
      GoodInv st → GoodInv st') ∧
    (∀ (st : AppState) (auth : Option SessionUser) (n e : String)
        (st' : AppState) (m : String),
      reject_registration_request st auth n e = .ok (st', m) →
      GoodInv st → GoodInv st') ∧
    (∀ (st : AppState) (auth : Option SessionUser) (n e : String)
        (st' : AppState) (m : String),
      unregister_from_capability st auth n e = .ok (st', m) →
      GoodInv st → GoodInv st') :=
  ⟨goodInv_initial,
   fun _ _ _ _ _ _ _ hok hnp h => goodInv_register hok hnp h,
   fun _ _ _ _ _ _ hok h => goodInv_approve hok h,
   fun _ _ _ _ _ _ hok h => goodInv_reject hok h,
   fun _ _ _ _ _ _ hok h => goodInv_unregister hok h⟩

/-- Witness for the amended C1: carol's submission from the seeded state
preserves both invariants. -/
theorem claim_C1_witness : GoodInv st1 :=
  claim_C1_amended_preservation.2.1 initialState (some carol) "Cloud Architecture"
    "carol@slalom.com" "t0" st1
    "Registration request submitted for carol@slalom.com on Cloud Architecture. A practice lead must approve it."
    rfl (fun _ _ _ => rfl) claim_C1_amended_preservation.1

/-- Counterexample to claim C8 as stated: the stored hash
`"pbkdf2_sha256$notanint$salt$bb"` is well-formed in the claim's sense (four
dollar-separated fields, recognized algorithm tag), the supplied password
does not match (the hash primitive returns `"aa"`, the stored digest is
`"bb"`), yet login raises the uncaught `ValueError` from
`int("notanint")` — neither the 401 Unauthorized error nor a
ServerConfigError-class `HTTPException`. -/
theorem claim_C8_counterexample :
    splitDollar3 "pbkdf2_sha256$notanint$salt$bb" =
      ["pbkdf2_sha256", "notanint", "salt", "bb"] ∧
    pyToInt "notanint" = none ∧
    login hashA usersBad "u" "p" = .error .valueError :=
  ⟨rfl, rfl, rfl⟩

/-- Claim C8 (amended): when a stored hash is well-formed in the strengthened
sense — four dollar-separated fields, the recognized `pbkdf2_sha256` tag, and
an iterations field parsing as an integer at least 1 — login with a
non-matching password fails 401 Unauthorized (never a config error); and when
the stored format is malformed (not four fields) or the algorithm tag is
unrecognized, `verify_password` fails with the corresponding 500
ServerConfigError-class error regardless of the password supplied. -/
theorem claim_C8_error_classification :
    (∀ (pbkdf2 : String → String → Nat → String) (users : List UserRecord)
        (username password : String) (user : UserRecord)
        (iterations salt digest : String) (k : Int),
      get_user_by_username users username = some user →
      splitDollar3 user.password_hash = ["pbkdf2_sha256", iterations, salt, digest] →
      pyToInt iterations = some k →
      1 ≤ k →
      pbkdf2 password salt k.toNat ≠ digest →
      login pbkdf2 users username password =
        .error (.httpError 401 "Invalid username or password")) ∧
    (∀ (pbkdf2 : String → String → Nat → String) (stored pw : String),
      (splitDollar3 stored).length ≠ 4 →
      verify_password pbkdf2 stored pw =
        .error (.httpError 500 "Invalid credential configuration")) ∧
    (∀ (pbkdf2 : String → String → Nat → String) (stored pw : String)
        (a i s d : String),
      splitDollar3 stored = [a, i, s, d] →
      a ≠ "pbkdf2_sha256" →
      verify_password pbkdf2 stored pw =
        .error (.httpError 500 "Unsupported password hash algorithm")) := by
  refine ⟨?_, ?_, ?_⟩
  · intro pbkdf2 users username password user iterations salt digest k
      hget hsplit hparse hk hne
    have hv : verify_password pbkdf2 user.password_hash password = .ok false := by
      unfold verify_password
      rw [hsplit]
      have hlt : ¬ k < 1 := by omega
      simp [hparse, hlt, beq_eq_false_iff_ne.mpr hne]
    simp [login, hget, hv]
  · intro pbkdf2 stored pw hlen
    unfold verify_password
    rcases hl : splitDollar3 stored with - | ⟨a, - | ⟨b, - | ⟨c, - | ⟨d, - | ⟨x, rest⟩⟩⟩⟩⟩
    · rfl
    · rfl
    · rfl
    · rfl
    · rw [hl] at hlen
      simp at hlen
    · rfl
  · intro pbkdf2 stored pw a i s d hsplit hne
    unfold verify_password
    rw [hsplit]
    simp [hne]

/-- Witness for the amended C8: with a well-formed stored hash and a
non-matching password, login is 401 Unauthorized. -/
theorem claim_C8_witness :
    login hashA users0 "u" "p" =
      .error (.httpError 401 "Invalid username or password") :=
  claim_C8_error_classification.1 hashA users0 "u" "p"
    ⟨"u", "u@x.com", "consultant", [], "pbkdf2_sha256$1$salt$bb"⟩
    "1" "salt" "bb" 1 rfl rfl rfl (by decide) (by decide)
